import Mathlib

/-!
Verification of the docs-crawler repository: a shallow embedding, in Lean, of
the crawl-progress tracker and incremental cache (`docs_crawler/cache.py`),
the content extractor and Markdown post-processor (`docs_crawler/crawler.py`),
and the Markdown exporter (`docs_crawler/exporter.py`), together with theorems
settling the specification's claims about them.

Filesystem and network effects are modelled by explicit state values
(directory listings, file contents, parsed documents); Python dicts keyed by
strings become association lists; Python `None` becomes `Option`.
-/

namespace DocsCrawler

/-! Progress tracker (`docs_crawler/cache.py`, class `CrawlProgress`)

`CrawlProgress.data` is either `None` or a dict with keys `started_at`,
`total`, `pending`, `completed`, `failed`.  The `started_at` timestamp plays
no role in any claim and is omitted from the state.  `self.data is None` is
modelled by `Option ProgressData`. -/

/-- One element of the `failed` list: the dict
`{"url": url, "error": str(error) if error else None}`. -/
structure FailedEntry where
  url : String
  error : Option String
deriving DecidableEq

/-- The in-memory progress state created by `CrawlProgress.start`. -/
structure ProgressData where
  total : Nat
  pending : List String
  completed : List String
  failed : List FailedEntry
deriving DecidableEq

/-- Function `CrawlProgress.start(urls)`: fresh state with all URLs pending. -/
def progressStart (urls : List String) : ProgressData :=
  { total := urls.length, pending := urls, completed := [], failed := [] }

/-- Python `list.remove(u)` as used after an `if u in l` guard: removes the
first occurrence of `u`. -/
def pyListRemove (l : List String) (u : String) : List String :=
  match l with
  | [] => []
  | x :: xs => if x = u then xs else x :: pyListRemove xs u

/-- Python `==` between a `str` and the dict stored in `failed` entries.
`str.__eq__(dict)` is always `False`, so the membership test
`url not in self.data["failed"]` in `mark_failed` never finds the URL. -/
def strEqFailedEntry (_u : String) (_e : FailedEntry) : Bool := false

/-- Expression `str(error) if error else None`: a falsy error (absent, or the empty
string) is recorded as `None`; `str` of a string is itself. -/
def pyStrOfError : Option String → Option String
  | none => none
  | some e => if e = "" then none else some e

/-- Method `CrawlProgress.mark_completed(url)` on a non-`None` state: remove `url`
from `pending` if present, append it to `completed` unless already there. -/
def markCompletedD (d : ProgressData) (url : String) : ProgressData :=
  { d with
    pending := if url ∈ d.pending then pyListRemove d.pending url else d.pending,
    completed := if url ∈ d.completed then d.completed else d.completed ++ [url] }

/-- Method `CrawlProgress.mark_failed(url, error)` on a non-`None` state: remove
`url` from `pending` if present; the guard `url not in self.data["failed"]`
compares the string to dicts (`strEqFailedEntry`, always false), so a new
record is always appended. -/
def markFailedD (d : ProgressData) (url : String) (error : Option String) : ProgressData :=
  { d with
    pending := if url ∈ d.pending then pyListRemove d.pending url else d.pending,
    failed :=
      if d.failed.any (strEqFailedEntry url) then d.failed
      else d.failed ++ [{ url := url, error := pyStrOfError error }] }

/-- Method `mark_completed` including the `if self.data is None: return` guard. -/
def markCompleted : Option ProgressData → String → Option ProgressData
  | none, _ => none
  | some d, url => some (markCompletedD d url)

/-- Method `mark_failed` including the `if self.data is None: return` guard. -/
def markFailed : Option ProgressData → String → Option String → Option ProgressData
  | none, _, _ => none
  | some d, url, e => some (markFailedD d url e)

/-- Method `CrawlProgress.get_pending_urls`: `[]` when `data is None`. -/
def getPendingUrls : Option ProgressData → List String
  | none => []
  | some d => d.pending

/-- The dict returned by `CrawlProgress.get_stats` (`started_at` omitted). -/
structure ProgressStats where
  total : Nat
  completed : Nat
  failed : Nat
  pending : Nat
deriving DecidableEq

/-- Method `CrawlProgress.get_stats`: `None` when `data is None`. -/
def getStats : Option ProgressData → Option ProgressStats
  | none => none
  | some d =>
      some { total := d.total, completed := d.completed.length,
             failed := d.failed.length, pending := d.pending.length }

/-- Method `CrawlProgress.is_complete`: `True` when `data is None`, else
`len(pending) == 0`. -/
def isComplete : Option ProgressData → Bool
  | none => true
  | some d => d.pending.length == 0

/-- Method `CrawlProgress.clear`: deletes the progress file and sets
`self.data = None`; in-memory effect is `none` regardless of prior state. -/
def clearProgress (_ : Option ProgressData) : Option ProgressData := none

/-- One call to `mark_completed` or `mark_failed`. -/
inductive ProgressOp where
  | complete (url : String)
  | fail (url : String) (error : Option String)
deriving DecidableEq

/-- The URL an operation marks. -/
def ProgressOp.markedUrl : ProgressOp → String
  | .complete u => u
  | .fail u _ => u

/-- Apply one marking operation to a (non-`None`) progress state. -/
def applyOp (d : ProgressData) : ProgressOp → ProgressData
  | .complete u => markCompletedD d u
  | .fail u e => markFailedD d u e

/-- Apply a sequence of marking operations in order. -/
def runOps (d : ProgressData) (ops : List ProgressOp) : ProgressData :=
  ops.foldl applyOp d

/-! Incremental cache (`docs_crawler/cache.py`, class `CrawlCache`)

The cache is a dict `{"version": 1, "pages": { url: entry, ...}}`.  The
string-keyed `pages` dict is modelled as an association list in insertion
order.  A page entry is always the four-field dict written by `update_page`;
its `last_crawled` field is the `datetime.now().isoformat()` string, supplied
here as an explicit `now` argument. -/

/-- Constant `CACHE_VERSION` from `cache.py`. -/
def CACHE_VERSION : Int := 1

/-- A value of the `pages` dict, as written by `CrawlCache.update_page`. -/
structure CachePage where
  content_hash : String
  last_crawled : String
  etag : Option String
  last_modified : Option String
deriving DecidableEq

/-- A JSON value that can occupy the `"version"` entry of the parsed cache
file.  `json.load` yields a Python `int` for integer literals (`jint`) and a
`float` for other numeric literals; `jfloat` carries the exact rational value
of that binary64 float.  Containers (lists, dicts) carry no payload here
because no container ever compares equal to an `int`. -/
inductive JsonScalar where
  | jnull
  | jbool (b : Bool)
  | jint (n : Int)
  | jfloat (q : ℚ)
  | jstr (s : String)
  | jcontainer
deriving DecidableEq

/-- Python `==` between a parsed JSON value and an `int`, as used by
`data.get("version") != CACHE_VERSION`: numeric values compare by exact
value across `int`/`float` (`1.0 == 1` is `True`), `bool` is an `int`
subclass (`True == 1`, `False == 0`), and `None`, strings and containers
never equal an `int`. -/
def pyEqInt : JsonScalar → Int → Bool
  | .jint m, n => m == n
  | .jfloat q, n => q == (n : ℚ)
  | .jbool b, n => (if b then (1 : Int) else 0) == n
  | .jnull, _ => false
  | .jstr _, _ => false
  | .jcontainer, _ => false

/-- The in-memory cache store `self.data`.  The `version` entry is whatever
JSON value the key holds: the `int` `CACHE_VERSION` in a fresh store, or the
parsed file value (possibly `1.0` or `True`) in a store kept by
`_load_cache`, which returns the parsed dict unchanged. -/
structure CacheData where
  version : JsonScalar
  pages : List (String × CachePage)
deriving DecidableEq

/-- The empty store `{"version": CACHE_VERSION, "pages": {}}`. -/
def emptyCacheData : CacheData :=
  { version := JsonScalar.jint CACHE_VERSION, pages := [] }

/-- Python dict lookup `pages.get(url)` on the association list. -/
def dictGet (ps : List (String × CachePage)) (k : String) : Option CachePage :=
  match ps with
  | [] => none
  | (k', v) :: rest => if k' = k then some v else dictGet rest k

/-- Python dict assignment `pages[url] = entry`: replace in place if the key
exists, else append (dicts preserve insertion order). -/
def dictSet (ps : List (String × CachePage)) (k : String) (v : CachePage) :
    List (String × CachePage) :=
  match ps with
  | [] => [(k, v)]
  | (k', v') :: rest => if k' = k then (k, v) :: rest else (k', v') :: dictSet rest k v

/-- The exceptions `_load_cache` can let escape to the caller: its `except`
clause names only `(json.JSONDecodeError, IOError)`. -/
inductive PyError where
  | attributeError
  | unicodeDecodeError
deriving DecidableEq

/-- The state of the on-disk cache file as `CrawlCache._load_cache` sees it:

* `missing` — `os.path.exists` is false;
* `unreadable` — opening or reading raises `IOError` (caught);
* `undecodable` — the bytes are not valid UTF-8, so reading inside
  `json.load` raises `UnicodeDecodeError`, a `ValueError` that is neither
  `json.JSONDecodeError` nor `IOError` and is therefore NOT caught;
* `unparseable` — `json.load` raises `json.JSONDecodeError` (caught);
* `parsedNonObject` — `json.load` returns a non-dict (list, string, number,
  bool or null); only dicts have `.get`, so `data.get("version")` raises
  `AttributeError`, which is NOT caught;
* `parsedObject` — `json.load` returns a dict whose `"version"` entry is
  `version` (`none` when the key is absent) and whose `"pages"` entry holds
  `pages`. -/
inductive CacheFile where
  | missing
  | unreadable
  | undecodable
  | unparseable
  | parsedNonObject
  | parsedObject (version : Option JsonScalar) (pages : List (String × CachePage))
deriving DecidableEq

/-- Result of `data.get("version") != CACHE_VERSION` being false: an absent
key gives `None`, which never equals `CACHE_VERSION`; a present value
compares under Python `==` (`pyEqInt`). -/
def versionFieldMatches : Option JsonScalar → Bool
  | none => false
  | some jv => pyEqInt jv CACHE_VERSION

/-- Method `CrawlCache._load_cache`: a missing file, a caught read or parse
error, or a parsed object with a mismatched version yield the empty store; a
parsed object with a matching version is returned unchanged; a non-UTF-8
file or a parsed non-object RAISES (`Except.error`) to the caller. -/
def loadCache : CacheFile → Except PyError CacheData
  | .missing => Except.ok emptyCacheData
  | .unreadable => Except.ok emptyCacheData
  | .undecodable => Except.error PyError.unicodeDecodeError
  | .unparseable => Except.ok emptyCacheData
  | .parsedNonObject => Except.error PyError.attributeError
  | .parsedObject none _ => Except.ok emptyCacheData
  | .parsedObject (some jv) pages =>
      if pyEqInt jv CACHE_VERSION then Except.ok { version := jv, pages := pages }
      else Except.ok emptyCacheData

/-- Method `CrawlCache.get_page_info(url)`. -/
def get_page_info (d : CacheData) (url : String) : Option CachePage :=
  dictGet d.pages url

/-- Method `CrawlCache.update_page(url, content_hash, etag, last_modified)`; `now`
stands for `datetime.now().isoformat()`. -/
def update_page (d : CacheData) (url content_hash : String)
    (etag last_modified : Option String) (now : String) : CacheData :=
  { d with
    pages := dictSet d.pages url
      { content_hash := content_hash, last_crawled := now,
        etag := etag, last_modified := last_modified } }

/-- Method `CrawlCache.is_changed(url, new_content_hash)`: true when the URL has no
entry (`if not cached` — entries are the non-empty dicts written by
`update_page`, hence truthy exactly when present), else true iff the stored
`content_hash` differs. -/
def is_changed (d : CacheData) (url new_content_hash : String) : Bool :=
  match get_page_info d url with
  | none => true
  | some info => info.content_hash != new_content_hash

/-! String helpers shared by the crawler and exporter models

Python `str.strip()` / `str.split('\n')` / `'\n'.join` are modelled over the
character list of a `String`.  Whitespace is the ASCII whitespace recognised
by `str.strip()` (space, tab, newline, carriage return, vertical tab, form
feed); the crawler only ever strips ASCII output. -/

/-- ASCII whitespace as stripped by Python `str.strip()`. -/
def isPySpace (c : Char) : Bool :=
  c = ' ' || c = '\t' || c = '\n' || c = '\r' || c = '\x0b' || c = '\x0c'

/-- Strip characters satisfying `p` from both ends of a character list. -/
def stripEnds (p : Char → Bool) (l : List Char) : List Char :=
  ((l.dropWhile p).reverse.dropWhile p).reverse

/-- Python `str.strip()` (ASCII whitespace). -/
def pyStrip (s : String) : String := String.mk (stripEnds isPySpace s.data)

/-- Split a character list on a separator character; like Python
`str.split(sep)`, the result is never empty and keeps empty fields. -/
def splitCh (c : Char) : List Char → List (List Char)
  | [] => [[]]
  | x :: xs =>
      if x = c then [] :: splitCh c xs
      else
        match splitCh c xs with
        | g :: gs => (x :: g) :: gs
        | [] => [[x]]

/-- Python `markdown.split('\n')`. -/
def splitLines (s : String) : List String := (splitCh '\n' s.data).map String.mk

/-- Python `'\n'.join(lines)`. -/
def joinLines : List String → String
  | [] => ""
  | [l] => l
  | l :: ls => l ++ "\n" ++ joinLines ls

/-- Test `not line.strip()`: the line is empty or all whitespace. -/
def pyLineIsBlank (l : String) : Bool := l.data.all isPySpace

/-! Markdown post-processing (`Crawler.convert_to_markdown`, tail)

The converter output is split on newlines; a line is "empty" when
`not line.strip()`; a line that is empty while the previous kept line was
empty is dropped; the kept lines are re-joined and the whole result is
stripped. -/

/-- Body of the blank-line-collapsing loop: `prev` is `prev_empty`. -/
def cleanGo (prev : Bool) : List String → List String
  | [] => []
  | l :: ls =>
      let e := pyLineIsBlank l
      if e && prev then cleanGo prev ls
      else l :: cleanGo e ls

/-- The `cleaned_lines` list built by the loop (`prev_empty` starts `False`). -/
def cleanLines (ls : List String) : List String := cleanGo false ls

/-- The post-processing tail of `convert_to_markdown`:
`'\n'.join(cleaned_lines).strip()`. -/
def postprocessMarkdown (s : String) : String :=
  pyStrip (joinLines (cleanLines (splitLines s)))

/-! Content-root selection (`Crawler.convert_to_markdown`, selection part)

The parsed, boilerplate-stripped document is modelled abstractly: `sel s` is
`soup.select_one(s)` and `body` is `soup.find('body')`, each yielding an
element carrying its plain-text length `len(e.get_text(strip=True))` and the
string `md(str(e), heading_style="ATX", strip=['img'])` that markdownify
produces for it.  BeautifulSoup tag truthiness is modelled by `Option`
presence (matched content tags and bodies with content are truthy). -/

/-- An element of the parsed document, reduced to the two observations the
selection code makes of it. -/
structure HtmlElement where
  textLen : Nat
  md : String
deriving DecidableEq

/-- The parsed document after title extraction and boilerplate removal. -/
structure HtmlDoc where
  title : String
  sel : String → Option HtmlElement
  body : Option HtmlElement

/-- The ordered candidate list `content_selectors` from the source. -/
def contentSelectors : List String :=
  ["article", "[role=\"main\"]", ".docs-content", ".content",
   ".markdown-body", "main", ".main-content"]

/-- The selection loop: `content_element` is overwritten by `select_one` on
every iteration and the loop breaks only on a match with more than 100
characters of text, so after a full pass the variable holds whatever the
last selector returned. -/
def selectLoop (d : HtmlDoc) : List String → Option HtmlElement
  | [] => none
  | [s] => d.sel s
  | s :: rest =>
      match d.sel s with
      | some e => if 100 < e.textLen then some e else selectLoop d rest
      | none => selectLoop d rest

/-- The content root after the loop and the `if not content_element:
content_element = soup.find('body')` fallback. -/
def contentRoot (d : HtmlDoc) : Option HtmlElement :=
  match selectLoop d contentSelectors with
  | some e => some e
  | none => d.body

/-- Decides whether a selector's match qualifies (text length over 100). -/
def selQualifies (d : HtmlDoc) (s : String) : Bool :=
  match d.sel s with
  | some e => decide (100 < e.textLen)
  | none => false

/-- Modelled from the spec's words for comparison with `contentRoot`: the
first selector match with more than 100 characters of text. -/
def specFirstQualifying (d : HtmlDoc) (ss : List String) : Option HtmlElement :=
  ss.findSome? fun s =>
    match d.sel s with
    | some e => if 100 < e.textLen then some e else none
    | none => none

/-- Modelled from the claim's words: first qualifying selector match, else
the document body. -/
def specClaimedRoot (d : HtmlDoc) : Option HtmlElement :=
  match specFirstQualifying d contentSelectors with
  | some e => some e
  | none => d.body

/-- The root the code actually selects, stated declaratively: first
qualifying selector match; otherwise the `.main-content` match (of any text
length), because the last loop iteration leaves it in `content_element`;
otherwise the body. -/
def specAmendedRoot (d : HtmlDoc) : Option HtmlElement :=
  match specFirstQualifying d contentSelectors with
  | some e => some e
  | none =>
      match d.sel ".main-content" with
      | some e => some e
      | none => d.body

/-- Result of `convert_to_markdown`: `(markdown, title)`; the empty string
when no content root exists. -/
def convert_to_markdown (d : HtmlDoc) : String × String :=
  match contentRoot d with
  | none => ("", d.title)
  | some e => (postprocessMarkdown e.md, d.title)

/-! Slug derivation (`Crawler.process_url_with_playwright`) and the index
file name (`Crawler.generate_index`). -/

/-- Python `path.strip('/')`: drop `'/'` characters from both ends. -/
def stripSlashes (l : List Char) : List Char := stripEnds (fun c => c = '/') l

/-- Expression `urlparse(url).path.strip('/').replace('/', '_')` followed by the
`if not slug: slug = "index"` default, as a function of the URL path. -/
def slugOf (path : String) : String :=
  let s := String.mk ((stripSlashes path.data).map fun c => if c = '/' then '_' else c)
  if s = "" then "index" else s

/-- The per-page output file name `f"{slug}.md"`. -/
def pageFilename (path : String) : String := slugOf path ++ ".md"

/-- The file name `generate_index` writes to (`"index.md"`). -/
def indexFilename : String := "index.md"

/-! Hostname extraction (`Crawler.extract_subdomain`)

CPython's `urlparse(url).hostname` is embedded for URLs without bracketed
IPv6 hosts: an optional scheme (a leading run of ASCII letters, digits,
`+`, `-`, `.` starting with a letter, up to a colon) is removed; a netloc is
present only when the remainder starts with `//` and extends to the next
`/`, `?` or `#`; the hostname is the part of the netloc after the last `@`
and before the first `:`, ASCII-lowercased, or `None` when empty. -/

/-- Characters CPython's `urlsplit` allows inside a scheme. -/
def schemeChar (c : Char) : Bool :=
  c.isAlpha || c.isDigit || c = '+' || c = '-' || c = '.'

/-- ASCII lowercasing, as `str.lower()` acts on ASCII hostnames. -/
def asciiLower (c : Char) : Char :=
  if 'A' ≤ c && c ≤ 'Z' then Char.ofNat (c.toNat + 32) else c

/-- Scheme removal step of `urlsplit`: when the text before the first colon
is a non-empty valid scheme, drop it together with the colon. -/
def splitScheme (url : List Char) : List Char :=
  let pre := url.takeWhile (fun c => c ≠ ':')
  match url.dropWhile (fun c => c ≠ ':') with
  | ':' :: rest =>
      if decide (pre ≠ []) && (pre.headD ' ').isAlpha && pre.all schemeChar then rest
      else url
  | _ => url

/-- The part of the netloc after the last `@` (`netloc.rpartition('@')[2]`). -/
def afterLastAt (l : List Char) : List Char :=
  (l.reverse.takeWhile (fun c => c ≠ '@')).reverse

/-- Embedded `urlparse(url).hostname` (no bracketed-IPv6 handling). -/
def hostnameOf (url : String) : Option String :=
  let u := splitScheme url.data
  if u.take 2 = ['/', '/'] then
    let netloc := (u.drop 2).takeWhile fun c => c ≠ '/' && c ≠ '?' && c ≠ '#'
    let hostname := (afterLastAt netloc).takeWhile fun c => c ≠ ':'
    if hostname = [] then none else some (String.mk (hostname.map asciiLower))
  else none

/-- Method `Crawler.extract_subdomain(url)`: `parts = hostname.split('.')`;
`parts[-2]` when there are at least two parts, `parts[0]` for exactly one,
`'default'` when no hostname parses (`split` never yields an empty list, so
the final case is written over the reversed parts). -/
def extract_subdomain (url : String) : String :=
  match hostnameOf url with
  | none => "default"
  | some h =>
      match (splitCh '.' h.data).reverse with
      | _ :: p :: _ => String.mk p
      | [p] => String.mk p
      | [] => "default"

/-! Exporter (`docs_crawler/exporter.py`, class `Exporter`)

The input directory is a listing (the set `os.listdir` returns, in arbitrary
order) plus a content map: `content f = some c` when reading `f` yields `c`,
`none` when opening or reading raises (those exceptions are caught and the
file skipped or the index fallback taken).  `os.path.exists` is membership
in the listing. -/

/-- Test `filename.endswith(suffix)` over character lists. -/
def strEndsWith (s suffix : String) : Bool :=
  s.data.reverse.take suffix.data.length == suffix.data.reverse

/-- An input directory for the exporter. -/
structure ExportDir where
  listing : List String
  content : String → Option String

/-- Lexicographic comparison of character lists by code point, the order
Python `sorted` uses on strings. -/
def lexLe : List Char → List Char → Bool
  | [], _ => true
  | _ :: _, [] => false
  | a :: as, b :: bs => if a < b then true else if b < a then false else lexLe as bs

/-- Python string comparison `s <= t`. -/
def strLe (s t : String) : Bool := lexLe s.data t.data

/-- Insert into a `strLe`-sorted list, keeping it sorted. -/
def insertSorted (x : String) : List String → List String
  | [] => [x]
  | y :: ys => if strLe x y then x :: y :: ys else y :: insertSorted x ys

/-- Python `sorted` on a list of strings, as insertion sort. -/
def sortStrings : List String → List String
  | [] => []
  | x :: xs => insertSorted x (sortStrings xs)

/-- Method `Exporter._get_alphabetical_order`: sorted listing filtered to
`.md` files other than `index.md`. -/
def getAlphabeticalOrder (d : ExportDir) : List String :=
  (sortStrings d.listing).filter fun f =>
    strEndsWith f ".md" && f != "index.md"

/-- Whether a bracket-delimited segment of the index can be produced by the
regex piece `[^\\]]+\\.md` / `[^\\)]+\\.md`: at least one character followed by
`.md` (the delimiter exclusion holds by construction of the segment). -/
def refSegOk (g : List Char) : Bool :=
  4 ≤ g.length && g.reverse.take 3 == ['d', 'm', '.']

/-- Consume one expected character or fail. -/
def expectChar (c : Char) : List Char → Option (List Char)
  | [] => none
  | x :: r => if x = c then some r else none

/-- One attempt of the pattern `\[([^\]]+\.md)\]\([^\)]+\.md\)` at the head
of the text: the bracketed segments run to the next `]` / `)`, so the match
exists exactly when both segments end in `.md` and are non-empty; on success
the value is the capture (the file name between square brackets) and the
text after the match. -/
def matchRefAt (l : List Char) : Option (List Char × List Char) := do
  let r ← expectChar '[' l
  let g1 := r.takeWhile fun x => x ≠ ']'
  let r1 ← expectChar ']' (r.dropWhile fun x => x ≠ ']')
  let r2 ← expectChar '(' r1
  let g2 := r2.takeWhile fun x => x ≠ ')'
  let r4 ← expectChar ')' (r2.dropWhile fun x => x ≠ ')')
  if refSegOk g1 && refSegOk g2 then pure (g1, r4) else none

/-- Scan for non-overlapping matches left to right, as `re.findall` does:
try a match at every position, resuming after a successful match.  Fuel is
the remaining text length; every step consumes at least one character
(`findRefsGo_fuel` below shows the result does not depend on surplus
fuel). -/
def findRefsGo : Nat → List Char → List String
  | 0, _ => []
  | fuel + 1, l =>
      match matchRefAt l with
      | some (g, rest) => String.mk g :: findRefsGo fuel rest
      | none =>
          match l with
          | [] => []
          | _ :: r => findRefsGo fuel r

/-- Expression `re.findall(r"\[([^\]]+\.md)\]\([^\)]+\.md\)", content)`. -/
def findRefs (l : List Char) : List String := findRefsGo l.length l

/-- Method `Exporter.get_page_order`: index order when `index.md` exists, is
readable and yields references (kept references are filtered to non-index
files existing on disk); otherwise alphabetical order.  A read error on
`index.md` is caught and also falls back to alphabetical order. -/
def get_page_order (d : ExportDir) : List String :=
  if "index.md" ∈ d.listing then
    match d.content "index.md" with
    | none => getAlphabeticalOrder d
    | some c =>
        let ms := findRefs c.data
        if ms = [] then getAlphabeticalOrder d
        else ms.filter fun f => f != "index.md" && d.listing.contains f
  else getAlphabeticalOrder d

/-- The separator string `"\n\n---\n\n"` appended between files. -/
def mergeSep : String := "\n\n---\n\n"

/-- The loop of `Exporter.merge` over the resolved file list, building the
`merged_content` list: a file whose read raises is skipped with a warning;
otherwise the separator is appended when the list is non-empty, then the
stripped content. -/
def mergePartsGo (d : ExportDir) (acc : List String) : List String → List String
  | [] => acc
  | f :: fs =>
      match d.content f with
      | none => mergePartsGo d acc fs
      | some c =>
          mergePartsGo d
            ((if acc ≠ [] then acc ++ [mergeSep] else acc) ++ [pyStrip c]) fs

/-- Python `"".join(parts)`. -/
def strConcat : List String → String
  | [] => ""
  | s :: ss => s ++ strConcat ss

/-- The error message of the `ValueError` raised by `merge` on an empty file
list (the actual message also names the input directory). -/
def mergeError : String := "No markdown files found"

/-- Method `Exporter.merge`: `ValueError` on an empty resolved file list, else
the joined parts. -/
def merge (d : ExportDir) : Except String String :=
  let files := get_page_order d
  if files = [] then Except.error mergeError
  else Except.ok (strConcat (mergePartsGo d [] files))

/-- Modelled from the claim's words: the expected merged text for a list of
(readable) files — each file's content stripped of surrounding whitespace,
joined with the `---` separator surrounded by blank lines. -/
def specSepJoin (d : ExportDir) : List String → String
  | [] => ""
  | [f] => pyStrip ((d.content f).getD "")
  | f :: fs => pyStrip ((d.content f).getD "") ++ mergeSep ++ specSepJoin d fs

/-- Tail form of the separator join: separator, stripped content, rest. -/
def specSepTail (d : ExportDir) : List String → String
  | [] => ""
  | f :: fs => mergeSep ++ pyStrip ((d.content f).getD "") ++ specSepTail d fs

/-! Predicates used to state the post-processing and extraction claims. -/

/-- Checks that no two adjacent lines of the list are both blank. -/
def noAdjBlank : List String → Bool
  | a :: b :: r => !(pyLineIsBlank a && pyLineIsBlank b) && noAdjBlank (b :: r)
  | _ => true

/-- Checks that the first line (if any) is not blank. -/
def noLeadBlank : List String → Bool
  | [] => true
  | a :: _ => !pyLineIsBlank a

/-- Checks that the first character (if any) is not ASCII whitespace. -/
def noLeadSpaceCh : List Char → Bool
  | [] => true
  | c :: _ => !isPySpace c

/-- Checks that a string neither starts nor ends with ASCII whitespace. -/
def isStrippedStr (s : String) : Bool :=
  noLeadSpaceCh s.data && noLeadSpaceCh s.data.reverse

/-! Concrete inputs used by counterexamples and witnesses. -/

/-- A page whose only selector match is a `.main-content` element with 50
characters of text, inside a document body with 500 characters of text. -/
def shortMainDoc : HtmlDoc :=
  { title := "T",
    sel := fun s => if s = ".main-content" then some { textLen := 50, md := "short" } else none,
    body := some { textLen := 500, md := "long body" } }

/-- A page with no selector matches and no body. -/
def emptyDoc : HtmlDoc :=
  { title := "No Title", sel := fun _ => none, body := none }

/-- A progress state that already records a failure for URL `"u"`. -/
def progressFailedEx : ProgressData :=
  { total := 1, pending := [], completed := [],
    failed := [{ url := "u", error := none }] }

/-- The operation sequence used by the progress-invariant witness. -/
def opsEx : List ProgressOp :=
  [ProgressOp.complete "a", ProgressOp.fail "b" (some "boom")]

/-- The index content used by the exporter witness: rows referencing
`c.md`, `a.md`, `b.md` in that order. -/
def exIndexContent : String :=
  "| t | [u](u) | [c.md](c.md) |\n| t | [u](u) | [a.md](a.md) |\n| t | [u](u) | [b.md](b.md) |\n"

/-- A directory with an index listing `[c.md, a.md, b.md]` in an order that
differs from the alphabetical order on disk. -/
def exDirIndexed : ExportDir :=
  { listing := ["index.md", "a.md", "b.md", "c.md"],
    content := fun f =>
      if f = "index.md" then some exIndexContent
      else if f = "a.md" then some " A \n"
      else if f = "b.md" then some "B"
      else if f = "c.md" then some "C\n\n"
      else none }

/-- An empty directory. -/
def exDirEmpty : ExportDir := { listing := [], content := fun _ => none }

/-! Helper lemmas. -/

theorem dictGet_dictSet_self (ps : List (String × CachePage)) (k : String) (v : CachePage) :
    dictGet (dictSet ps k v) k = some v := by
  induction ps with
  | nil => simp [dictSet, dictGet]
  | cons p rest ih =>
      obtain ⟨k', v'⟩ := p
      by_cases hk : k' = k
      · simp [dictSet, dictGet, hk]
      · simp [dictSet, dictGet, hk, ih]

/-! The claims. -/

/-- C9: on an uninitialized progress store (`data is None`), `mark_completed`
and `mark_failed` are no-ops, `get_pending_urls` returns the empty list,
`get_stats` returns no statistics, `is_complete` is true, and `clear` leaves
the store uninitialized. -/
theorem C9_uninitialized_progress (u : String) (e : Option String) :
    markCompleted none u = none ∧
    markFailed none u e = none ∧
    getPendingUrls none = [] ∧
    getStats none = none ∧
    isComplete none = true ∧
    (∀ d : Option ProgressData, clearProgress d = none) :=
  ⟨rfl, rfl, rfl, rfl, rfl, fun _ => rfl⟩

/-- C10: a URL path that is empty or consists only of slashes yields the slug
`index` and the page file name `index.md`, the same reserved name
`generate_index` writes. -/
theorem C10_root_slug_collides_with_index (path : String)
    (h : path.data.all (fun c => c = '/') = true) :
    slugOf path = "index" ∧ pageFilename path = indexFilename := by
  have h0 : path.data.dropWhile (fun c => c = '/') = [] := by
    rw [List.dropWhile_eq_nil_iff]
    intro x hx
    simpa using List.all_eq_true.mp h x hx
  have h1 : stripSlashes path.data = [] := by
    simp [stripSlashes, stripEnds, h0, List.dropWhile]
  constructor
  · simp [slugOf, h1]
  · simp [pageFilename, slugOf, h1, indexFilename]

/-- Witness for C10 at the root path `"/"`. -/
theorem C10_witness : slugOf "/" = "index" ∧ pageFilename "/" = indexFilename :=
  C10_root_slug_collides_with_index "/" (by decide)

/-- C3 counterexample: loading does raise to the caller — a cache file whose
bytes are not UTF-8 propagates `UnicodeDecodeError`, and a file holding
valid JSON that is not an object (for example `[]`) propagates
`AttributeError` from `data.get("version")`, since the `except` clause
catches only `json.JSONDecodeError` and `IOError`. -/
theorem C3_counterexample :
    loadCache CacheFile.undecodable = Except.error PyError.unicodeDecodeError ∧
    loadCache CacheFile.parsedNonObject = Except.error PyError.attributeError :=
  ⟨rfl, rfl⟩

/-- C3 amended: construction yields the empty store (version marker set, no
pages) for a missing file, a read error (`IOError`), a parse error
(`json.JSONDecodeError`), and a parsed JSON object whose version entry does
not equal the expected version under Python `==` (so `1.0` and `True` count
as equal to `1` and those stores are kept unchanged); every store it returns
carries a version equal (under Python `==`) to the expected version; but a
non-UTF-8 file raises `UnicodeDecodeError` and a parsed non-object raises
`AttributeError` to the caller. -/
theorem C3_amended_load_cache (f : CacheFile) :
    (f = CacheFile.missing → loadCache f = Except.ok emptyCacheData) ∧
    (f = CacheFile.unreadable → loadCache f = Except.ok emptyCacheData) ∧
    (f = CacheFile.unparseable → loadCache f = Except.ok emptyCacheData) ∧
    (∀ v pages, f = CacheFile.parsedObject v pages →
      versionFieldMatches v = false → loadCache f = Except.ok emptyCacheData) ∧
    (∀ jv pages, f = CacheFile.parsedObject (some jv) pages →
      pyEqInt jv CACHE_VERSION = true →
      loadCache f = Except.ok { version := jv, pages := pages }) ∧
    (∀ st, loadCache f = Except.ok st → pyEqInt st.version CACHE_VERSION = true) ∧
    (f = CacheFile.parsedNonObject → loadCache f = Except.error PyError.attributeError) ∧
    (f = CacheFile.undecodable → loadCache f = Except.error PyError.unicodeDecodeError) := by
  refine ⟨?_, ?_, ?_, ?_, ?_, ?_, ?_, ?_⟩
  · intro h; subst h; rfl
  · intro h; subst h; rfl
  · intro h; subst h; rfl
  · intro v pages h hv
    subst h
    rcases v with - | jv
    · rfl
    · simp only [versionFieldMatches] at hv
      simp [loadCache, hv]
  · intro jv pages h hv
    subst h
    simp [loadCache, hv]
  · intro st hst
    rcases f with - | - | - | - | - | ⟨v, pages⟩
    · rw [show loadCache CacheFile.missing = Except.ok emptyCacheData from rfl] at hst
      cases hst
      decide
    · rw [show loadCache CacheFile.unreadable = Except.ok emptyCacheData from rfl] at hst
      cases hst
      decide
    · simp [loadCache] at hst
    · rw [show loadCache CacheFile.unparseable = Except.ok emptyCacheData from rfl] at hst
      cases hst
      decide
    · simp [loadCache] at hst
    · rcases v with - | jv
      · rw [show loadCache (CacheFile.parsedObject none pages)
            = Except.ok emptyCacheData from rfl] at hst
        cases hst
        decide
      · by_cases hv : pyEqInt jv CACHE_VERSION = true
        · rw [show loadCache (CacheFile.parsedObject (some jv) pages)
              = if pyEqInt jv CACHE_VERSION then Except.ok { version := jv, pages := pages }
                else Except.ok emptyCacheData from rfl, if_pos hv] at hst
          cases hst
          exact hv
        · rw [show loadCache (CacheFile.parsedObject (some jv) pages)
              = if pyEqInt jv CACHE_VERSION then Except.ok { version := jv, pages := pages }
                else Except.ok emptyCacheData from rfl,
            if_neg hv] at hst
          cases hst
          decide
  · intro h; subst h; rfl
  · intro h; subst h; rfl

/-- Witness for C3: an integer version 2 resets the store, while a float
version `1.0` equals `1` under Python `==` and the store is kept. -/
theorem C3_witness :
    loadCache (CacheFile.parsedObject (some (JsonScalar.jint 2)) []) =
      Except.ok emptyCacheData ∧
    loadCache (CacheFile.parsedObject (some (JsonScalar.jfloat 1)) []) =
      Except.ok { version := JsonScalar.jfloat 1, pages := [] } :=
  ⟨(C3_amended_load_cache (CacheFile.parsedObject (some (JsonScalar.jint 2)) [])).2.2.2.1
      (some (JsonScalar.jint 2)) [] rfl (by decide),
   (C3_amended_load_cache (CacheFile.parsedObject (some (JsonScalar.jfloat 1)) [])).2.2.2.2.1
      (JsonScalar.jfloat 1) [] rfl (by decide)⟩

/-- C4: `is_changed` is true for an uncached URL, false exactly when the
stored hash equals the given hash, and after `update_page(url, h)` it is
false at `h` and true at any other hash. -/
theorem C4_is_changed_spec (d : CacheData) (url h now : String)
    (etag lm : Option String) :
    (get_page_info d url = none → is_changed d url h = true) ∧
    (is_changed d url h = false ↔
      ∃ info, get_page_info d url = some info ∧ info.content_hash = h) ∧
    is_changed (update_page d url h etag lm now) url h = false ∧
    (∀ h', h' ≠ h → is_changed (update_page d url h etag lm now) url h' = true) := by
  have hupd : get_page_info (update_page d url h etag lm now) url =
      some { content_hash := h, last_crawled := now, etag := etag, last_modified := lm } := by
    simp [get_page_info, update_page, dictGet_dictSet_self]
  refine ⟨?_, ?_, ?_, ?_⟩
  · intro h0
    simp [is_changed, h0]
  · rcases hx : get_page_info d url with - | info
    · simp [is_changed, hx]
    · simp [is_changed, hx]
  · simp [is_changed, hupd]
  · intro h' hne
    simp [is_changed, hupd, bne]
    exact fun hexact => absurd hexact.symm hne

/-- Witness for C4 after updating an empty cache. -/
theorem C4_witness :
    is_changed (update_page emptyCacheData "u" "h1" none none "t") "u" "h1" = false ∧
    is_changed (update_page emptyCacheData "u" "h1" none none "t") "u" "h2" = true :=
  ⟨(C4_is_changed_spec emptyCacheData "u" "h1" "t" none none).2.2.1,
   (C4_is_changed_spec emptyCacheData "u" "h1" "t" none none).2.2.2 "h2" (by decide)⟩

/-- C8: `mark_failed` is not idempotent: the duplicate guard compares the URL
string against the failed-entry dicts and never fires, so a call for a URL
already recorded in `failed` appends a second record. -/
theorem C8_mark_failed_not_idempotent (d : ProgressData) (u : String) (e : Option String)
    (h : ∃ en ∈ d.failed, en.url = u) :
    (markFailedD d u e).failed = d.failed ++ [{ url := u, error := pyStrOfError e }] ∧
    2 ≤ ((markFailedD d u e).failed.countP fun en => en.url == u) := by
  have hguard : d.failed.any (strEqFailedEntry u) = false := by
    simp [strEqFailedEntry]
  have happ : (markFailedD d u e).failed =
      d.failed ++ [{ url := u, error := pyStrOfError e }] := by
    simp [markFailedD, hguard]
  refine ⟨happ, ?_⟩
  have h1 : 0 < d.failed.countP (fun en => en.url == u) := by
    rw [List.countP_pos_iff]
    obtain ⟨en, hen, hu⟩ := h
    exact ⟨en, hen, by simp [hu]⟩
  rw [happ, List.countP_append]
  have h2 : ([{ url := u, error := pyStrOfError e }] : List FailedEntry).countP
      (fun en => en.url == u) = 1 := by simp
  omega

/-- Witness for C8: a second failure record for `"u"` is appended. -/
theorem C8_witness :
    (markFailedD progressFailedEx "u" (some "boom")).failed =
      progressFailedEx.failed ++ [{ url := "u", error := pyStrOfError (some "boom") }] ∧
    2 ≤ ((markFailedD progressFailedEx "u" (some "boom")).failed.countP
      fun en => en.url == "u") :=
  C8_mark_failed_not_idempotent progressFailedEx "u" (some "boom")
    ⟨{ url := "u", error := none }, by decide, rfl⟩

/-- C7: `extract_subdomain` maps `docs.example.com` to `example`,
`antigravity.google` to `antigravity`, `localhost` to `localhost`, and
`localhost:8000` to `localhost` (the port is dropped by hostname parsing);
in general it yields the second-to-last dot-separated hostname label when
there are at least two labels, the sole label when there is one, and
`default` when no hostname parses. -/
theorem C7_extract_subdomain_spec :
    extract_subdomain "https://docs.example.com" = "example" ∧
    extract_subdomain "https://antigravity.google" = "antigravity" ∧
    extract_subdomain "http://localhost" = "localhost" ∧
    extract_subdomain "http://localhost:8000" = "localhost" ∧
    (∀ url : String, hostnameOf url = none → extract_subdomain url = "default") ∧
    (∀ (url h : String) (b p : List Char) (rp : List (List Char)),
      hostnameOf url = some h → (splitCh '.' h.data).reverse = b :: p :: rp →
      extract_subdomain url = String.mk p) ∧
    (∀ (url h : String) (p : List Char),
      hostnameOf url = some h → splitCh '.' h.data = [p] →
      extract_subdomain url = String.mk p) := by
  refine ⟨by decide, by decide, by decide, by decide, ?_, ?_, ?_⟩
  · intro url h0
    simp [extract_subdomain, h0]
  · intro url h b p rp h0 h1
    simp [extract_subdomain, h0, h1]
  · intro url h p h0 h1
    simp [extract_subdomain, h0, h1]

/-- Witness for C7 on a three-label host: the second-to-last label wins. -/
theorem C7_witness : extract_subdomain "https://code.claude.com/docs/a" = "claude" := by
  have h := C7_extract_subdomain_spec.2.2.2.2.2.1
    "https://code.claude.com/docs/a" "code.claude.com"
    "com".data "claude".data ["code".data] (by decide) (by decide)
  rw [h]

theorem noAdjBlank_cons (l : String) (rest : List String)
    (h1 : noAdjBlank rest = true)
    (h2 : pyLineIsBlank l = false ∨ noLeadBlank rest = true) :
    noAdjBlank (l :: rest) = true := by
  cases rest with
  | nil => simp [noAdjBlank]
  | cons b r =>
      simp only [noAdjBlank, Bool.and_eq_true]
      refine ⟨?_, h1⟩
      rcases h2 with h2 | h2
      · simp [h2]
      · simp only [noLeadBlank, Bool.not_eq_true'] at h2
        simp [h2]

theorem cleanGo_spec (ls : List String) : ∀ p : Bool,
    noAdjBlank (cleanGo p ls) = true ∧
    (p = true → noLeadBlank (cleanGo p ls) = true) := by
  induction ls with
  | nil => intro p; simp [cleanGo, noAdjBlank, noLeadBlank]
  | cons l ls ih =>
      intro p
      by_cases he : pyLineIsBlank l = true
      · cases p with
        | true =>
            have hskip : cleanGo true (l :: ls) = cleanGo true ls := by
              simp [cleanGo, he]
            rw [hskip]
            exact ih true
        | false =>
            have hkeep : cleanGo false (l :: ls) = l :: cleanGo true ls := by
              simp [cleanGo, he]
            rw [hkeep]
            refine ⟨noAdjBlank_cons l _ (ih true).1 (Or.inr ((ih true).2 rfl)), ?_⟩
            intro hcon
            exact absurd hcon (by simp)
      · have he' : pyLineIsBlank l = false := by
          revert he; cases pyLineIsBlank l <;> simp
        have hkeep : cleanGo p (l :: ls) = l :: cleanGo false ls := by
          simp [cleanGo, he']
        rw [hkeep]
        refine ⟨noAdjBlank_cons l _ (ih false).1 (Or.inl he'), ?_⟩
        intro _
        simp [noLeadBlank, he']

theorem noLeadSpaceCh_dropWhile (l : List Char) :
    noLeadSpaceCh (l.dropWhile isPySpace) = true := by
  induction l with
  | nil => simp [List.dropWhile, noLeadSpaceCh]
  | cons c l ih =>
      by_cases h : isPySpace c
      · simpa [List.dropWhile, h] using ih
      · simp [List.dropWhile, h, noLeadSpaceCh]

theorem noLeadSpaceCh_append_left (x y : List Char)
    (h : noLeadSpaceCh (x ++ y) = true) : noLeadSpaceCh x = true := by
  cases x with
  | nil => simp [noLeadSpaceCh]
  | cons c r => simpa [noLeadSpaceCh] using h

theorem stripEnds_isStripped (l : List Char) :
    noLeadSpaceCh (stripEnds isPySpace l) = true ∧
    noLeadSpaceCh (stripEnds isPySpace l).reverse = true := by
  have hA : noLeadSpaceCh (l.dropWhile isPySpace) = true := noLeadSpaceCh_dropWhile l
  have hdecomp :
      l.dropWhile isPySpace =
        ((l.dropWhile isPySpace).reverse.dropWhile isPySpace).reverse ++
        ((l.dropWhile isPySpace).reverse.takeWhile isPySpace).reverse := by
    calc l.dropWhile isPySpace
        = (l.dropWhile isPySpace).reverse.reverse := (List.reverse_reverse _).symm
      _ = ((l.dropWhile isPySpace).reverse.takeWhile isPySpace ++
            (l.dropWhile isPySpace).reverse.dropWhile isPySpace).reverse := by
          rw [List.takeWhile_append_dropWhile]
      _ = _ := by rw [List.reverse_append]
  constructor
  · show noLeadSpaceCh ((l.dropWhile isPySpace).reverse.dropWhile isPySpace).reverse = true
    rw [hdecomp] at hA
    exact noLeadSpaceCh_append_left _ _ hA
  · show noLeadSpaceCh
      (((l.dropWhile isPySpace).reverse.dropWhile isPySpace).reverse).reverse = true
    rw [List.reverse_reverse]
    exact noLeadSpaceCh_dropWhile (l.dropWhile isPySpace).reverse

/-- C6: the post-processing step leaves no two adjacent blank lines in the
kept-line list, is exactly join-then-strip of that list, and its result
neither starts nor ends with whitespace. -/
theorem C6_blank_line_collapse (s : String) :
    noAdjBlank (cleanLines (splitLines s)) = true ∧
    postprocessMarkdown s = pyStrip (joinLines (cleanLines (splitLines s))) ∧
    isStrippedStr (postprocessMarkdown s) = true := by
  refine ⟨(cleanGo_spec (splitLines s) false).1, rfl, ?_⟩
  obtain ⟨ha, hb⟩ := stripEnds_isStripped (joinLines (cleanLines (splitLines s))).data
  simp [postprocessMarkdown, isStrippedStr, pyStrip, ha, hb]

theorem selectLoop_append (d : HtmlDoc) (s : String) :
    ∀ ss : List String,
      selectLoop d (ss ++ [s]) =
        match specFirstQualifying d (ss ++ [s]) with
        | some e => some e
        | none => d.sel s := by
  intro ss
  induction ss with
  | nil =>
      simp only [List.nil_append]
      rcases hs : d.sel s with - | e
      · simp [selectLoop, specFirstQualifying, List.findSome?, hs]
      · by_cases hq : 100 < e.textLen
        · simp [selectLoop, specFirstQualifying, List.findSome?, hs, hq]
        · simp [selectLoop, specFirstQualifying, List.findSome?, hs, hq]
  | cons a ss ih =>
      cases hss : ss ++ [s] with
      | nil => exact absurd hss (by simp)
      | cons c cs =>
          rw [hss] at ih
          rw [List.cons_append, hss]
          rcases ha : d.sel a with - | e
          · simpa [selectLoop, specFirstQualifying, List.findSome?_cons, ha] using ih
          · by_cases hq : 100 < e.textLen
            · simp [selectLoop, specFirstQualifying, List.findSome?_cons, ha, hq]
            · simpa [selectLoop, specFirstQualifying, List.findSome?_cons, ha, hq] using ih

/-- C1 counterexample: in `shortMainDoc` no selector qualifies (every match
has at most 100 characters of text) and a body exists, yet the content root
is the short `.main-content` match, not the body as the claim states. -/
theorem C1_counterexample :
    (contentSelectors.all fun s => !selQualifies shortMainDoc s) = true ∧
    shortMainDoc.body ≠ none ∧
    contentRoot shortMainDoc ≠ shortMainDoc.body ∧
    contentRoot shortMainDoc ≠ specClaimedRoot shortMainDoc ∧
    contentRoot shortMainDoc = some { textLen := 50, md := "short" } := by
  refine ⟨by decide, by decide, by decide, by decide, by decide⟩

/-- C1 amended: the first selector whose match has more than 100 characters
of text wins; when none qualifies, the root is the `.main-content` match if
that selector matched at all (the last loop iteration leaves it assigned),
and only otherwise the document body; with no root at all the conversion
returns the empty string and the title. -/
theorem C1_amended_content_root (d : HtmlDoc) :
    contentRoot d = specAmendedRoot d ∧
    (contentRoot d = none → convert_to_markdown d = ("", d.title)) := by
  constructor
  · have h := selectLoop_append d ".main-content"
      ["article", "[role=\"main\"]", ".docs-content", ".content", ".markdown-body", "main"]
    have hsel : contentSelectors =
        ["article", "[role=\"main\"]", ".docs-content", ".content",
         ".markdown-body", "main"] ++ [".main-content"] := rfl
    unfold contentRoot specAmendedRoot
    rw [hsel, h]
    rcases hq : specFirstQualifying d
        (["article", "[role=\"main\"]", ".docs-content", ".content",
          ".markdown-body", "main"] ++ [".main-content"]) with - | e
    · rcases hm : d.sel ".main-content" with - | e2 <;> simp
    · simp
  · intro h0
    simp [convert_to_markdown, h0]

/-- Witness for C1 on a document with no matches and no body. -/
theorem C1_witness : convert_to_markdown emptyDoc = ("", "No Title") :=
  (C1_amended_content_root emptyDoc).2 (by decide)

theorem pyListRemove_sublist (l : List String) (u : String) :
    (pyListRemove l u).Sublist l := by
  induction l with
  | nil => simp [pyListRemove]
  | cons x xs ih =>
      by_cases hx : x = u
      · rw [pyListRemove, if_pos hx]
        exact List.sublist_cons_self x xs
      · rw [pyListRemove, if_neg hx]
        exact ih.cons₂ x

theorem length_pyListRemove_of_mem {l : List String} {u : String} (h : u ∈ l) :
    (pyListRemove l u).length + 1 = l.length := by
  induction l with
  | nil => cases h
  | cons x xs ih =>
      by_cases hx : x = u
      · simp [pyListRemove, hx]
      · have hu : u ∈ xs := by
          rcases List.mem_cons.mp h with h' | h'
          · exact absurd h'.symm hx
          · exact h'
        simp [pyListRemove, hx, ih hu]

theorem mem_pyListRemove_of_ne {l : List String} {u v : String}
    (hv : v ∈ l) (hne : v ≠ u) : v ∈ pyListRemove l u := by
  induction l with
  | nil => cases hv
  | cons x xs ih =>
      by_cases hx : x = u
      · subst hx
        rcases List.mem_cons.mp hv with h' | h'
        · exact absurd h' hne
        · simpa [pyListRemove] using h'
      · rcases List.mem_cons.mp hv with h' | h'
        · simp [pyListRemove, hx, h']
        · simp [pyListRemove, hx, ih h']

theorem not_mem_pyListRemove_self {l : List String} {u : String} (h : l.Nodup) :
    u ∉ pyListRemove l u := by
  induction l with
  | nil => simp [pyListRemove]
  | cons x xs ih =>
      obtain ⟨hx, hxs⟩ := List.nodup_cons.mp h
      by_cases hxu : x = u
      · subst hxu
        simpa [pyListRemove] using hx
      · intro hmem
        rw [pyListRemove] at hmem
        simp only [if_neg hxu, List.mem_cons] at hmem
        rcases hmem with h' | h'
        · exact hxu h'.symm
        · exact ih hxs h'

theorem applyOp_pending_sublist (d : ProgressData) (op : ProgressOp) :
    ((applyOp d op).pending).Sublist d.pending := by
  rcases op with u | ⟨u, e⟩ <;>
    · simp only [applyOp, markCompletedD, markFailedD]
      by_cases hu : u ∈ d.pending
      · simpa [hu] using pyListRemove_sublist d.pending u
      · simp [hu]

theorem runOps_invariant (ops : List ProgressOp) (d : ProgressData)
    (hnd : d.pending.Nodup)
    (hops : (ops.map ProgressOp.markedUrl).Nodup)
    (hmem : ∀ op ∈ ops, op.markedUrl ∈ d.pending)
    (h1 : ∀ u ∈ d.pending, u ∉ d.completed)
    (h2 : ∀ u ∈ d.pending, ∀ en ∈ d.failed, en.url ≠ u)
    (h3 : d.pending.length + d.completed.length + d.failed.length = d.total) :
    (∀ u ∈ (runOps d ops).pending, u ∉ (runOps d ops).completed) ∧
    (∀ u ∈ (runOps d ops).pending, ∀ en ∈ (runOps d ops).failed, en.url ≠ u) ∧
    (runOps d ops).pending.length + (runOps d ops).completed.length +
      (runOps d ops).failed.length = (runOps d ops).total := by
  induction ops generalizing d with
  | nil => exact ⟨h1, h2, h3⟩
  | cons op ops ih =>
      have hrun : runOps d (op :: ops) = runOps (applyOp d op) ops := rfl
      rw [hrun]
      have hu : op.markedUrl ∈ d.pending := hmem op (List.mem_cons_self op ops)
      obtain ⟨hop, hops'⟩ := List.nodup_cons.mp hops
      have hpend : (applyOp d op).pending = pyListRemove d.pending op.markedUrl := by
        rcases op with u | ⟨u, e⟩ <;>
          simp_all [applyOp, markCompletedD, markFailedD, ProgressOp.markedUrl]
      have hnd' : (applyOp d op).pending.Nodup := by
        rw [hpend]
        exact (pyListRemove_sublist _ _).nodup hnd
      have hmem' : ∀ op' ∈ ops, op'.markedUrl ∈ (applyOp d op).pending := by
        intro op' hop'
        rw [hpend]
        refine mem_pyListRemove_of_ne (hmem op' (List.mem_cons_of_mem op hop')) ?_
        intro heq
        exact hop (heq ▸ List.mem_map_of_mem ProgressOp.markedUrl hop')
      have hlen : (applyOp d op).pending.length + 1 = d.pending.length := by
        rw [hpend]
        exact length_pyListRemove_of_mem hu
      have hsub : ∀ u, u ∈ (applyOp d op).pending → u ∈ d.pending ∧ u ≠ op.markedUrl := by
        intro u hmem''
        rw [hpend] at hmem''
        refine ⟨(pyListRemove_sublist _ _).subset hmem'', ?_⟩
        intro heq
        exact not_mem_pyListRemove_self hnd (heq ▸ hmem'')
      rcases hk : op with u | ⟨u, e⟩
      · -- mark_completed u
        have hucomp : u ∉ d.completed := h1 u (by simpa [hk, ProgressOp.markedUrl] using hu)
        have hcomp : (applyOp d (ProgressOp.complete u)).completed = d.completed ++ [u] := by
          simp [applyOp, markCompletedD, hucomp]
        have hfail : (applyOp d (ProgressOp.complete u)).failed = d.failed := rfl
        have htot : (applyOp d (ProgressOp.complete u)).total = d.total := rfl
        refine ih (applyOp d (ProgressOp.complete u)) (hk ▸ hnd') hops' (hk ▸ hmem')
          ?_ ?_ ?_
        · intro v hv
          obtain ⟨hvd, hvne⟩ := hsub v (hk ▸ hv)
          rw [hcomp]
          simp only [List.mem_append, List.mem_singleton, not_or]
          exact ⟨h1 v hvd, by simpa [hk, ProgressOp.markedUrl] using hvne⟩
        · intro v hv en hen
          obtain ⟨hvd, -⟩ := hsub v (hk ▸ hv)
          exact h2 v hvd en (hfail ▸ hen)
        · rw [hcomp, htot, hfail]
          have := hk ▸ hlen
          simp only [List.length_append, List.length_singleton]
          omega
      · -- mark_failed u e
        have hguard : d.failed.any (strEqFailedEntry u) = false := by
          simp [strEqFailedEntry]
        have hcomp : (applyOp d (ProgressOp.fail u e)).completed = d.completed := rfl
        have hfail : (applyOp d (ProgressOp.fail u e)).failed =
            d.failed ++ [{ url := u, error := pyStrOfError e }] := by
          simp [applyOp, markFailedD, hguard]
        have htot : (applyOp d (ProgressOp.fail u e)).total = d.total := rfl
        refine ih (applyOp d (ProgressOp.fail u e)) (hk ▸ hnd') hops' (hk ▸ hmem')
          ?_ ?_ ?_
        · intro v hv
          obtain ⟨hvd, -⟩ := hsub v (hk ▸ hv)
          exact hcomp ▸ h1 v hvd
        · intro v hv en hen
          obtain ⟨hvd, hvne⟩ := hsub v (hk ▸ hv)
          rw [hfail] at hen
          rcases List.mem_append.mp hen with h' | h'
          · exact h2 v hvd en h'
          · rw [List.mem_singleton.mp h']
            exact Ne.symm (by simpa [hk, ProgressOp.markedUrl] using hvne)
        · rw [hcomp, htot, hfail]
          have := hk ▸ hlen
          simp only [List.length_append, List.length_singleton]
          omega

/-- C2 counterexample: marking a URL that was never part of `start(urls)`
breaks the sum invariant even though no URL is marked twice — completing
`"x"` after `start([])` gives a state with 0 pending, 1 completed, 0 failed
but recorded total 0. -/
theorem C2_counterexample :
    ([] : List String).Nodup ∧
    (([ProgressOp.complete "x"].map ProgressOp.markedUrl).Nodup) ∧
    (runOps (progressStart []) [ProgressOp.complete "x"]).pending.length +
        (runOps (progressStart []) [ProgressOp.complete "x"]).completed.length +
        (runOps (progressStart []) [ProgressOp.complete "x"]).failed.length ≠
      (runOps (progressStart []) [ProgressOp.complete "x"]).total := by
  refine ⟨by decide, by decide, by decide⟩

/-- C2 amended: when `start(urls)` receives no duplicates, no URL is marked
twice, and every marked URL is one of the initialized URLs, the pending list
is disjoint from both the completed list and the recorded failed URLs, the
three lengths sum to the recorded total, and each marking operation shrinks
pending to a sublist of itself. -/
theorem C2_progress_invariants (urls : List String) (ops : List ProgressOp)
    (hurls : urls.Nodup)
    (hops : (ops.map ProgressOp.markedUrl).Nodup)
    (hin : ∀ op ∈ ops, op.markedUrl ∈ urls) :
    (∀ u ∈ (runOps (progressStart urls) ops).pending,
      u ∉ (runOps (progressStart urls) ops).completed) ∧
    (∀ u ∈ (runOps (progressStart urls) ops).pending,
      ∀ en ∈ (runOps (progressStart urls) ops).failed, en.url ≠ u) ∧
    (runOps (progressStart urls) ops).pending.length +
        (runOps (progressStart urls) ops).completed.length +
        (runOps (progressStart urls) ops).failed.length =
      (runOps (progressStart urls) ops).total ∧
    (∀ (d : ProgressData) (op : ProgressOp),
      ((applyOp d op).pending).Sublist d.pending) := by
  have h := runOps_invariant ops (progressStart urls) hurls hops hin
    (by simp [progressStart]) (by simp [progressStart]) (by simp [progressStart])
  exact ⟨h.1, h.2.1, h.2.2, applyOp_pending_sublist⟩

/-- Witness for C2 on two URLs, one completed and one failed. -/
theorem C2_witness :
    (runOps (progressStart ["a", "b"]) opsEx).pending.length +
        (runOps (progressStart ["a", "b"]) opsEx).completed.length +
        (runOps (progressStart ["a", "b"]) opsEx).failed.length =
      (runOps (progressStart ["a", "b"]) opsEx).total :=
  (C2_progress_invariants ["a", "b"] opsEx (by decide) (by decide) (by decide)).2.2.1

theorem lexLe_total : ∀ l m : List Char, lexLe l m = true ∨ lexLe m l = true := by
  intro l
  induction l with
  | nil => intro m; left; rfl
  | cons a as ih =>
      intro m
      cases m with
      | nil => right; rfl
      | cons b bs =>
          by_cases hab : a < b
          · left; simp [lexLe, hab]
          · by_cases hba : b < a
            · right; simp [lexLe, hba]
            · rcases ih bs with h | h
              · left; simp [lexLe, hab, hba, h]
              · right; simp [lexLe, hba, hab, h]

theorem lexLe_trans : ∀ l m n : List Char,
    lexLe l m = true → lexLe m n = true → lexLe l n = true := by
  intro l
  induction l with
  | nil => intro m n _ _; rfl
  | cons a as ih =>
      intro m n h1 h2
      cases m with
      | nil => simp [lexLe] at h1
      | cons b bs =>
          cases n with
          | nil => simp [lexLe] at h2
          | cons c cs =>
              by_cases hab : a < b
              · by_cases hbc : b < c
                · simp [lexLe, lt_trans hab hbc]
                · by_cases hcb : c < b
                  · simp [lexLe, hbc, hcb] at h2
                  · have hbceq : b = c := le_antisymm (not_lt.mp hcb) (not_lt.mp hbc)
                    subst hbceq
                    simp [lexLe, hab]
              · by_cases hba : b < a
                · simp [lexLe, hab, hba] at h1
                · have habeq : a = b := le_antisymm (not_lt.mp hba) (not_lt.mp hab)
                  subst habeq
                  simp only [lexLe, lt_irrefl, if_false] at h1
                  by_cases hbc : a < c
                  · simp [lexLe, hbc]
                  · by_cases hcb : c < a
                    · simp [lexLe, hbc, hcb] at h2
                    · simp only [lexLe, hbc, hcb, if_false] at h2 ⊢
                      exact ih bs cs h1 h2

theorem strLe_total (s t : String) : strLe s t = true ∨ strLe t s = true :=
  lexLe_total s.data t.data

theorem strLe_trans {s t u : String} (h1 : strLe s t = true) (h2 : strLe t u = true) :
    strLe s u = true :=
  lexLe_trans s.data t.data u.data h1 h2

theorem insertSorted_perm (x : String) (l : List String) :
    (insertSorted x l).Perm (x :: l) := by
  induction l with
  | nil => simp [insertSorted]
  | cons y ys ih =>
      by_cases h : strLe x y = true
      · simp [insertSorted, h]
      · simp only [insertSorted, if_neg h]
        exact List.Perm.trans (ih.cons y) (List.Perm.swap x y ys)

theorem sortStrings_perm (l : List String) : (sortStrings l).Perm l := by
  induction l with
  | nil => simp [sortStrings]
  | cons x xs ih =>
      exact List.Perm.trans (insertSorted_perm x (sortStrings xs)) (ih.cons x)

theorem pairwise_insertSorted (x : String) (l : List String)
    (h : List.Pairwise (fun a b => strLe a b = true) l) :
    List.Pairwise (fun a b => strLe a b = true) (insertSorted x l) := by
  induction l with
  | nil => simp [insertSorted]
  | cons y ys ih =>
      obtain ⟨hy, hys⟩ := List.pairwise_cons.mp h
      by_cases hxy : strLe x y = true
      · simp only [insertSorted, if_pos hxy]
        refine List.pairwise_cons.mpr ⟨?_, h⟩
        intro z hz
        rcases List.mem_cons.mp hz with rfl | hz'
        · exact hxy
        · exact strLe_trans hxy (hy z hz')
      · have hyx : strLe y x = true := by
          rcases strLe_total x y with h' | h'
          · exact absurd h' hxy
          · exact h'
        simp only [insertSorted, if_neg hxy]
        refine List.pairwise_cons.mpr ⟨?_, ih hys⟩
        intro z hz
        have hz' : z = x ∨ z ∈ ys := by
          simpa using (insertSorted_perm x ys).mem_iff.mp hz
        rcases hz' with rfl | hz'
        · exact hyx
        · exact hy z hz'

theorem pairwise_sortStrings (l : List String) :
    List.Pairwise (fun a b => strLe a b = true) (sortStrings l) := by
  induction l with
  | nil => simp [sortStrings]
  | cons x xs ih => exact pairwise_insertSorted x (sortStrings xs) ih

theorem strConcat_append_one (acc : List String) (x : String) :
    strConcat (acc ++ [x]) = strConcat acc ++ x := by
  induction acc with
  | nil => simp [strConcat, String.append_empty, String.empty_append]
  | cons a as ih => simp [strConcat, ih, String.append_assoc]

theorem specSepJoin_cons (d : ExportDir) : ∀ (fs : List String) (f : String),
    specSepJoin d (f :: fs) = pyStrip ((d.content f).getD "") ++ specSepTail d fs := by
  intro fs
  induction fs with
  | nil => intro f; simp [specSepJoin, specSepTail, String.append_empty]
  | cons f2 fs2 ih =>
      intro f
      rw [show specSepJoin d (f :: f2 :: fs2)
            = pyStrip ((d.content f).getD "") ++ mergeSep ++ specSepJoin d (f2 :: fs2) from rfl]
      rw [ih f2]
      simp [specSepTail, String.append_assoc]

theorem mergePartsGo_acc_eq (d : ExportDir) :
    ∀ (fs : List String) (acc : List String), acc ≠ [] →
      (∀ f ∈ fs, (d.content f).isSome = true) →
      strConcat (mergePartsGo d acc fs) = strConcat acc ++ specSepTail d fs := by
  intro fs
  induction fs with
  | nil =>
      intro acc _ _
      simp [mergePartsGo, specSepTail, String.append_empty]
  | cons f fs ih =>
      intro acc hacc hread
      obtain ⟨c, hc⟩ := Option.isSome_iff_exists.mp (hread f (List.mem_cons_self f fs))
      have hres : mergePartsGo d acc (f :: fs) =
          mergePartsGo d ((acc ++ [mergeSep]) ++ [pyStrip c]) fs := by
        simp [mergePartsGo, hc, hacc]
      rw [hres, ih _ (by simp) (fun g hg => hread g (List.mem_cons_of_mem f hg))]
      rw [strConcat_append_one, strConcat_append_one]
      simp [specSepTail, hc, String.append_assoc]

theorem mergeParts_eq_sepJoin (d : ExportDir) (fs : List String)
    (hread : ∀ f ∈ fs, (d.content f).isSome = true) :
    strConcat (mergePartsGo d [] fs) = specSepJoin d fs := by
  cases fs with
  | nil => rfl
  | cons f fs =>
      obtain ⟨c, hc⟩ := Option.isSome_iff_exists.mp (hread f (List.mem_cons_self f fs))
      have hstep : mergePartsGo d [] (f :: fs) = mergePartsGo d [pyStrip c] fs := by
        simp [mergePartsGo, hc]
      rw [hstep, specSepJoin_cons]
      cases fs with
      | nil => simp [mergePartsGo, strConcat, specSepTail, String.append_empty, hc]
      | cons f2 fs2 =>
          rw [mergePartsGo_acc_eq d (f2 :: fs2) [pyStrip c] (by simp)
            (fun g hg => hread g (List.mem_cons_of_mem f hg))]
          simp [strConcat, String.append_empty, hc]

/-- C5: with an index whose references all exist (and are readable), `merge`
concatenates the referenced files in index order, stripping each file and
separating with `---` surrounded by blank lines; with no index the resolved
order is the alphabetically sorted eligible listing (exactly the `.md` files
other than `index.md`); an index yielding no references also falls back to
alphabetical order; and an empty resolved file list makes `merge` raise. -/
theorem C5_merge_spec (d : ExportDir) :
    (∀ c : String, "index.md" ∈ d.listing → d.content "index.md" = some c →
      findRefs c.data ≠ [] →
      (∀ f ∈ findRefs c.data, f ≠ "index.md" ∧ f ∈ d.listing) →
      (∀ f ∈ findRefs c.data, (d.content f).isSome = true) →
      get_page_order d = findRefs c.data ∧
      merge d = Except.ok (specSepJoin d (findRefs c.data))) ∧
    ("index.md" ∉ d.listing →
      get_page_order d = getAlphabeticalOrder d ∧
      List.Pairwise (fun a b => strLe a b = true) (getAlphabeticalOrder d) ∧
      (getAlphabeticalOrder d).Perm
        (d.listing.filter fun f => strEndsWith f ".md" && f != "index.md") ∧
      (getAlphabeticalOrder d ≠ [] →
        (∀ f ∈ getAlphabeticalOrder d, (d.content f).isSome = true) →
        merge d = Except.ok (specSepJoin d (getAlphabeticalOrder d)))) ∧
    (∀ c : String, "index.md" ∈ d.listing → d.content "index.md" = some c →
      findRefs c.data = [] → get_page_order d = getAlphabeticalOrder d) ∧
    (get_page_order d = [] → merge d = Except.error mergeError) := by
  refine ⟨?_, ?_, ?_, ?_⟩
  · intro c hidx hc hne hkeep hread
    have hfil : (findRefs c.data).filter
        (fun f => f != "index.md" && d.listing.contains f) = findRefs c.data := by
      rw [List.filter_eq_self]
      intro f hf
      obtain ⟨h1, h2⟩ := hkeep f hf
      simp [h1, h2]
    have hord : get_page_order d = findRefs c.data := by
      simp only [get_page_order, if_pos hidx, hc]
      simp only [if_neg hne]
      exact hfil
    refine ⟨hord, ?_⟩
    have hmer : merge d = Except.ok (strConcat (mergePartsGo d [] (findRefs c.data))) := by
      simp [merge, hord, hne]
    rw [hmer, mergeParts_eq_sepJoin d _ hread]
  · intro hno
    have hord : get_page_order d = getAlphabeticalOrder d := by
      simp [get_page_order, hno]
    refine ⟨hord, ?_, ?_, ?_⟩
    · exact (pairwise_sortStrings d.listing).filter _
    · exact (sortStrings_perm d.listing).filter _
    · intro hne hread
      have hmer : merge d =
          Except.ok (strConcat (mergePartsGo d [] (getAlphabeticalOrder d))) := by
        simp [merge, hord, hne]
      rw [hmer, mergeParts_eq_sepJoin d _ hread]
  · intro c hidx hc hz
    simp [get_page_order, hidx, hc, hz]
  · intro h0
    simp [merge, h0]

/-- Witness for C5: the indexed directory merges in index order `[c, a, b]`
and the empty directory raises. -/
theorem C5_witness :
    merge exDirIndexed =
      Except.ok (specSepJoin exDirIndexed (findRefs exIndexContent.data)) ∧
    merge exDirEmpty = Except.error mergeError :=
  ⟨((C5_merge_spec exDirIndexed).1 exIndexContent (by decide) (by decide) (by decide)
      (by decide) (by decide)).2,
   (C5_merge_spec exDirEmpty).2.2.2 (by decide)⟩

end DocsCrawler
